import Mathlib

/-!
Shallow embedding of the Google-Maps scraping pipeline
(`business_profile_DC.py`, `primary_crawler.py`, `secondary_crawler.py`,
`storage_solution.py`) and proofs about the frozen claims.

Conventions of the embedding:
* Python strings are Lean `String`s (operated on as `List Char` where needed).
* Python `None` vs. a value is `Option`.
* Python exceptions are `Except Unit` (the payload of the exception is
  irrelevant to the claims).
* CPython `float(str)` parsing is modelled exactly over `ℚ` (plus infinities
  and NaN); IEEE-754 rounding of the resulting value is abstracted away, the
  accepted syntax is modelled faithfully (whitespace stripping, sign,
  underscores between digits, fractional part, exponent, `inf`/`infinity`/
  `nan` case-insensitively).  Only ASCII digits/whitespace are modelled.
-/

namespace GMaps

/-! ## Python string primitives used by the source -/

/-- Python `str.strip(chars)`: removes from both ends every character that
occurs in `chars` (a character *set*, not a literal prefix/suffix).
Used by `BusinessProfile.clean_service` as `self.services.strip("Services: ")`. -/
def pyStrip (s : String) (chars : String) : String :=
  let cset := chars.toList
  ⟨((s.toList.dropWhile (· ∈ cset)).reverse.dropWhile (· ∈ cset)).reverse⟩

/-- Python `sub in s` for strings: substring containment test, used by the
services-splitting lambda in `Storage.save_to_sql_`. -/
def pyIn (sub : String) (s : String) : Bool :=
  decide (sub.toList <:+: s.toList)

/-- Python `s.split(", ")` over the character list: greedy left-to-right,
non-overlapping matches of the fixed two-character delimiter used by
`Storage.save_to_sql_`. -/
def splitCommaSpace : List Char → List (List Char)
  | ',' :: ' ' :: rest => [] :: splitCommaSpace rest
  | c :: rest =>
      match splitCommaSpace rest with
      | r :: rs => (c :: r) :: rs
      | [] => [[c]]
  | [] => [[]]

/-- Python `s.split(", ")`. -/
def pySplit (s : String) : List String :=
  (splitCommaSpace s.toList).map List.asString

/-- Value of a (non-empty) list of decimal digit characters, most significant
first; Python `int(...)` applied to the text of a `\d+` regex match. -/
def digitsToNat (ds : List Char) : Nat :=
  ds.foldl (fun acc c => 10 * acc + (c.toNat - '0'.toNat)) 0

/-- Python `re.search(r"\d+", s)`: the first maximal contiguous run of digits
in `s`, or `none` when `s` contains no digit. -/
def findRun : List Char → Option (List Char)
  | [] => none
  | c :: rest =>
      if c.isDigit then some (c :: rest.takeWhile Char.isDigit)
      else findRun rest

/-! ## CPython `float(str)` parsing -/

/-- ASCII whitespace stripped by CPython before parsing a float string. -/
def pyIsSpace (c : Char) : Bool :=
  c = ' ' || c = '\t' || c = '\n' || c = '\x0d' || c = '\x0b' || c = '\x0c'

/-- A CPython `digitpart`: a greedy run of decimal digits in which single
underscores may appear between two digits (`1_000`).  Returns the digits with
underscores removed, and the unconsumed remainder of the input. -/
def udigits : List Char → List Char × List Char
  | [] => ([], [])
  | c :: '_' :: d :: r2 =>
      if c.isDigit then
        if d.isDigit then
          let p := udigits (d :: r2)
          (c :: p.1, p.2)
        else ([c], '_' :: d :: r2)
      else ([], c :: '_' :: d :: r2)
  | c :: rest =>
      if c.isDigit then
        let p := udigits rest
        (c :: p.1, p.2)
      else ([], c :: rest)

/-- The value CPython's `float()` produces, with the IEEE-754 finite values
modelled exactly as rationals. -/
inductive PyFloatVal where
  | fin (q : ℚ)
  | inf
  | neginf
  | nan
  deriving DecidableEq, Repr

/-- Apply a sign to a parsed special/finite float value (`-nan` is `nan`). -/
def PyFloatVal.applySign (neg : Bool) : PyFloatVal → PyFloatVal
  | fin q => fin (if neg then -q else q)
  | inf => if neg then neginf else inf
  | neginf => if neg then inf else neginf
  | nan => nan

/-- Case-insensitive comparison with a lowercase keyword (`inf`, `nan`, ...). -/
def matchesKeyword (cs : List Char) (kw : List Char) : Bool :=
  cs.map Char.toLower == kw

/-- Parse the body of a float string (after whitespace stripping and after the
optional sign): either `digitpart? (. digitpart?)? ((e|E) sign? digitpart)?`
with at least one digit in the mantissa, or one of the special keywords
(a string without mantissa digits can only be a keyword, and a keyword never
contains a digit, so checking the keywords only in the no-digit case is
equivalent to CPython's disjunction). -/
def pyFloatBody (cs : List Char) : Option PyFloatVal :=
    let ipr := udigits cs
    let fpr : List Char × List Char :=
      match ipr.2 with
      | '.' :: r2 => udigits r2
      | _ => ([], ipr.2)
    if ipr.1.isEmpty && fpr.1.isEmpty then
      if matchesKeyword cs ['i', 'n', 'f'] then some .inf
      else if matchesKeyword cs ['i', 'n', 'f', 'i', 'n', 'i', 't', 'y'] then
        some .inf
      else if matchesKeyword cs ['n', 'a', 'n'] then some .nan
      else none
    else
      let mant : ℚ := (digitsToNat ipr.1 : ℚ) + (digitsToNat fpr.1 : ℚ) / (10 : ℚ) ^ fpr.1.length
      let hasDot : Bool := match ipr.2 with | '.' :: _ => true | _ => false
      let rest2 := if hasDot then fpr.2 else ipr.2
      match rest2 with
      | [] => some (.fin mant)
      | e :: r3 =>
          if e = 'e' || e = 'E' then
            let eneg : Bool := match r3 with | '-' :: _ => true | _ => false
            let r4 := match r3 with
              | '+' :: r5 => r5
              | '-' :: r5 => r5
              | _ => r3
            let epr := udigits r4
            if epr.1.isEmpty then none
            else if epr.2.isEmpty then
              let ex : ℤ := if eneg then -(digitsToNat epr.1 : ℤ) else (digitsToNat epr.1 : ℤ)
              some (.fin (mant * (10 : ℚ) ^ ex))
            else none
          else none

/-- CPython `float(s)`: strip ASCII whitespace, take an optional sign, parse
the body.  `none` models the `ValueError` raise. -/
def pyFloat (s : String) : Option PyFloatVal :=
  let cs := (s.toList.dropWhile pyIsSpace).reverse.dropWhile pyIsSpace |>.reverse
  match cs with
  | '+' :: body => (pyFloatBody body).map (PyFloatVal.applySign false)
  | '-' :: body => (pyFloatBody body).map (PyFloatVal.applySign true)
  | body => (pyFloatBody body).map (PyFloatVal.applySign false)

/-! ## Record Model (`business_profile_DC.py`) -/

/-- State of the `rating` field after `clean_rating`: either the raw string
left untouched (the `if self.rating:` guard was falsy), a successfully parsed
float value, or Python `None` (the `except ValueError` branch). -/
inductive RatingField where
  | raw (s : String)
  | value (v : PyFloatVal)
  | none
  deriving DecidableEq, Repr

/-- State of the `reviews` field after `clean_reviews`: either the raw string
left untouched (falsy guard), an extracted integer, or Python `None` (no digit
run found). -/
inductive ReviewsField where
  | raw (s : String)
  | count (n : Nat)
  | none
  deriving DecidableEq, Repr

/-- Model of `BusinessProfile.clean_service`: `if self.services: self.services =
self.services.strip("Services: ")`.  The guard means the empty string is left
unchanged (which coincides with stripping it anyway). -/
def clean_service (s : String) : String :=
  if s = "" then s else pyStrip s "Services: "

/-- Model of `BusinessProfile.clean_reviews`: on a truthy string, search for the first
`\d+` run and convert it with `int`, else set the field to `None`; a falsy
(empty) string is left untouched. -/
def clean_reviews (s : String) : ReviewsField :=
  if s = "" then .raw s
  else
    match findRun s.toList with
    | some ds => .count (digitsToNat ds)
    | Option.none => .none

/-- Model of `BusinessProfile.clean_rating`: on a truthy string, `try: float(...)
except ValueError: None`; a falsy (empty) string is left untouched. -/
def clean_rating (s : String) : RatingField :=
  if s = "" then .raw s
  else
    match pyFloat s with
    | some v => .value v
    | Option.none => .none

/-- The `BusinessProfile` dataclass after `__post_init__` has run, for the
case where every field was supplied as a string (as the Profile Extractor
does).  `website`, `phone_number` and `address` receive no cleaning. -/
structure BusinessProfile where
  profile : String
  business : String
  website : String
  phone_number : String
  services : String
  address : String
  rating : RatingField
  reviews : ReviewsField
  deriving DecidableEq, Repr

/-- Constructing a `BusinessProfile` from raw strings: field assignment
followed by `__post_init__` (the three cleaners). -/
def mkBusinessProfile (profile business website phone_number services address
    rating reviews : String) : BusinessProfile :=
  { profile := profile
    business := business
    website := website
    phone_number := phone_number
    services := clean_service services
    address := address
    rating := clean_rating rating
    reviews := clean_reviews reviews }

/-- The services list that `Storage.save_to_sql_` derives from the cleaned
services text: `str(x).split(", ") if ", " in str(x) else []`. -/
def servicesToList (cleaned : String) : List String :=
  if pyIn ", " cleaned then pySplit cleaned else []

/-- End-to-end services pipeline on one raw services string: dataclass
cleaning (`clean_service`) followed by the persistence-layer split. -/
def servicesPipeline (raw : String) : List String :=
  servicesToList (clean_service raw)

/-! ## Profile Extractor (`Secondary_Stage.get_business_data`)

A detail page is abstracted to the text content of the first element matching
each of the seven fixed CSS selectors the extractor queries
(`selectolax`'s `css_first(sel)` returns the node or `None`; `.text()` on the
node yields its text).  `Option.none` models `css_first` finding no match, in
which case the subsequent `.text()` call raises `AttributeError` on `None`. -/

/-- First-match text per structural marker of a detail page. -/
structure Markup where
  businessText : Option String
  websiteText : Option String
  phoneText : Option String
  servicesText : Option String
  addressText : Option String
  ratingText : Option String
  reviewsText : Option String
  deriving DecidableEq, Repr

/-- Model of `css_first(sel).text()`: returns the text when the selector matched, and
raises `AttributeError` (modelled as `Except.error`) when `css_first`
returned `None`. -/
def cssFirstText : Option String → Except Unit String
  | some t => .ok t
  | Option.none => .error ()

/-- One iteration of `get_business_data`'s loop body: build the
`BusinessProfile` from the seven marker texts of one fetched detail page.
Any missing marker makes the whole construction raise. -/
def extractRecord (m : Markup) (profile : String) : Except Unit BusinessProfile := do
  let business ← cssFirstText m.businessText
  let website ← cssFirstText m.websiteText
  let phone_number ← cssFirstText m.phoneText
  let services ← cssFirstText m.servicesText
  let address ← cssFirstText m.addressText
  let rating ← cssFirstText m.ratingText
  let reviews ← cssFirstText m.reviewsText
  return mkBusinessProfile profile business website phone_number services
    address rating reviews

/-- Model of `Secondary_Stage.get_business_data` over a list of `(markup, profile)`
responses: appends each extracted record to the shared `business_info_list`.
The returned flag is `false` when an extraction raised; the list then keeps
the records appended before the raise (the exception propagates out of the
method after mutating the shared list). -/
def get_business_data (state : List BusinessProfile) :
    List (Markup × String) → List BusinessProfile × Bool
  | [] => (state, true)
  | (m, profile) :: rest =>
      match extractRecord m profile with
      | .ok r => get_business_data (state ++ [r]) rest
      | .error _ => (state, false)

/-! ## Batch Scheduler (`Secondary_Stage`) -/

/-- Constant `CALL_RATE`: maximum number of profiles processed in a single batch. -/
def CALL_RATE : Nat := 120

/-- Loop body of `Secondary_Stage.create_profiles_array` for the
`len(profiles_list) > CALL_RATE` case.  The Python loop appends each profile
to `sub_list` and flushes `sub_list` when
`(profiles_list.index(profile) + 1) % CALL_RATE == 0` (note: `.index` finds
the *first* occurrence of the value) or when `profile is profiles_list[-1]`.
The identity test is modelled positionally (`p = n - 1`): list elements
produced by parsing distinct markup are distinct objects, so `is` holds
exactly at the final position. -/
def cpaLoop (l : List String) (n : Nat) :
    Nat → List String → List String → List (List String)
  | _, [], _ => []
  | p, x :: rest, acc =>
      if (l.indexOf x + 1) % CALL_RATE = 0 ∨ p = n - 1 then
        (acc ++ [x]) :: cpaLoop l n (p + 1) rest []
      else cpaLoop l n (p + 1) rest (acc ++ [x])

/-- Model of `Secondary_Stage.create_profiles_array`: a single batch when the list is
short enough, otherwise the index-based splitting loop (`p` tracks the
iteration position through the list). -/
def create_profiles_array (l : List String) : List (List String) :=
  if l.length ≤ CALL_RATE then [l]
  else cpaLoop l l.length 0 l []

/-- Batch loop of `Secondary_Stage.s_handler` on the happy path where every
fetch succeeds (fetch failures only trigger the retry loop, which re-issues
the same wave and does not change the data flow): for each batch, gather the
`(markup, profile)` responses in input order and run `get_business_data`.
An extraction raise propagates out of `s_handler` (`Except.error`). -/
def sHandlerBatches (page : String → Markup) :
    List BusinessProfile → List (List String) → Except Unit (List BusinessProfile)
  | st, [] => .ok st
  | st, b :: bs =>
      match get_business_data st (b.map (fun p => (page p, p))) with
      | (st2, true) => sHandlerBatches page st2 bs
      | (_, false) => .error ()

/-- Model of `Secondary_Stage.s_handler`: partition the profile list with
`create_profiles_array`, extract every batch, and return the (class-level,
shared) `business_info_list`.  `shared` is the content of
`Secondary_Stage.business_info_list` when the call starts: the attribute is
declared on the *class*, so a fresh instance does not start from `[]` —
it sees whatever previous runs accumulated in the same process. -/
def s_handler (shared : List BusinessProfile) (profiles : List String)
    (page : String → Markup) : Except Unit (List BusinessProfile) :=
  sHandlerBatches page shared (create_profiles_array profiles)

/-! ## Page fetches (`Primary_Stage_Master.fetch_search_pages`,
`Secondary_Stage.fetch_businesses`)

The underlying transport call (`session.get`) is modelled by its outcome: an
`Except.error` for a network-level failure (which raises inside `get`
itself), or an `HttpResponse` carrying the status code and body text. -/

/-- An HTTP response as the fetchers see it. -/
structure HttpResponse where
  status_code : Nat
  text : String
  deriving DecidableEq, Repr

/-- Model of `Primary_Stage_Master.fetch_search_pages`: `response = session.get(url);
return response.text`.  No status check of any kind. -/
def fetch_search_pages (get_result : Except Unit HttpResponse) :
    Except Unit String := do
  let r ← get_result
  return r.text

/-- Model of `Secondary_Stage.fetch_businesses`: `session.get`, then
`if response.status_code != 200: raise Exception("Connection error!")`,
else `return response.text, url`. -/
def fetch_businesses (get_result : Except Unit HttpResponse) (url : String) :
    Except Unit (String × String) := do
  let r ← get_result
  if r.status_code ≠ 200 then throw ()
  else return (r.text, url)

/-! ## Primary Crawler offset sequence (`Primary_Stage_Subject_input.p_handler`) -/

/-- Constant `RESULTS_PER_PAGE`: the number of results per listing page. -/
def RESULTS_PER_PAGE : Nat := 20

/-- Model of `list(range(0, results_count, RESULTS_PER_PAGE))`. -/
def pages_available (results_count : Nat) : List Nat :=
  List.range' 0 ((results_count + RESULTS_PER_PAGE - 1) / RESULTS_PER_PAGE)
    RESULTS_PER_PAGE

/-- The offset sequence `p_handler` iterates over: the full range, and when
`next_page` is set, `pages_available[pages_available.index(2 *
RESULTS_PER_PAGE):]` — Python's `list.index` raises `ValueError` when the
value is absent, modelled as `Except.error`. -/
def p_handler_offsets (results_count : Nat) (next_page : Bool) :
    Except Unit (List Nat) :=
  let pages := pages_available results_count
  if next_page then
    if (2 * RESULTS_PER_PAGE) ∈ pages then
      .ok (pages.drop (pages.indexOf (2 * RESULTS_PER_PAGE)))
    else .error ()
  else .ok pages

/-! ## Helper lemmas -/

theorem dropWhile_append_all {α : Type} (p : α → Bool) :
    ∀ (l1 l2 : List α), (∀ a ∈ l1, p a) →
      List.dropWhile p (l1 ++ l2) = List.dropWhile p l2 := by
  intro l1
  induction l1 with
  | nil => intro l2 _; rfl
  | cons a l ih =>
      intro l2 h
      have ha : p a = true := h a (by simp)
      simp only [List.cons_append, List.dropWhile_cons, ha, if_true]
      exact ih l2 (fun b hb => h b (by simp [hb]))

theorem dropWhile_head_false {α : Type} (p : α → Bool) (a : α) (l : List α)
    (h : ¬ p a) : List.dropWhile p (a :: l) = a :: l := by
  simp [List.dropWhile_cons, h]

/-- Lemma: `pyStrip` removes exactly a leading block of set-characters and a trailing
block of set-characters: on `pre ++ (c :: mid ++ [z])` with `pre` inside the
set and `c`, `z` outside it, the core survives unchanged. -/
theorem pyStrip_label (chars : String) (pre : List Char) (c z : Char)
    (mid : List Char) (hpre : ∀ a ∈ pre, a ∈ chars.toList)
    (hc : c ∉ chars.toList) (hz : z ∉ chars.toList) :
    pyStrip ⟨pre ++ (c :: (mid ++ [z]))⟩ chars = ⟨c :: (mid ++ [z])⟩ := by
  unfold pyStrip
  rw [show (String.mk (pre ++ (c :: (mid ++ [z])))).toList
    = pre ++ (c :: (mid ++ [z])) from rfl]
  have h1 : List.dropWhile (fun x => decide (x ∈ chars.toList))
      (pre ++ (c :: (mid ++ [z]))) = c :: (mid ++ [z]) := by
    rw [dropWhile_append_all _ pre _ (by simpa using hpre)]
    exact dropWhile_head_false _ _ _ (by simpa using hc)
  simp only [h1]
  have h2 : (c :: (mid ++ [z])).reverse = z :: (mid.reverse ++ [c]) := by
    simp
  rw [h2, dropWhile_head_false _ _ _ (by simpa using hz)]
  simp

/-! ## Claim C2 — services cleaning

The claim reads `.strip("Services: ")` as removal of the literal leading
label.  Python's `str.strip` takes a character *set*: it removes, from both
ends, every character occurring in `"Services: "`.  On raw text that does not
carry the label (for example `"cars, vans"`, whose first character `c` and
last character `s` belong to the set), characters are still removed, so the
claim's universally quantified description is false; the two concrete
examples in the claim do hold. -/

/-- Counterexample to C2: for the raw services text `"cars, vans"` (which
does not carry the `"Services: "` label) the claim predicts the split
`["cars", "vans"]`, but the char-set strip eats the leading `c` and the
trailing `s`, producing `["ars", "van"]`. -/
theorem C2_services_label_strip_counterexample :
    servicesPipeline "cars, vans" = ["ars", "van"] ∧
    servicesPipeline "cars, vans" ≠ ["cars", "vans"] := by
  constructor
  · decide
  · decide

/-- Amended C2: services cleaning strips from both ends every character
drawn from the character set of `"Services: "` (Python `str.strip`
semantics); in particular, when the raw text is the label followed by a core
that starts and ends with characters outside that set, exactly the label is
removed and the core is then split on `", "` (empty result when the cleaned
text has no `", "`).  The claim's two examples hold. -/
theorem C2_services_cleaning (c z : Char) (mid : List Char)
    (hc : c ∉ "Services: ".toList) (hz : z ∉ "Services: ".toList) :
    clean_service ⟨"Services: ".toList ++ (c :: (mid ++ [z]))⟩
        = ⟨c :: (mid ++ [z])⟩ ∧
    servicesPipeline ⟨"Services: ".toList ++ (c :: (mid ++ [z]))⟩
        = servicesToList ⟨c :: (mid ++ [z])⟩ ∧
    (∀ raw : String, pyIn ", " (clean_service raw) = false →
      servicesPipeline raw = []) ∧
    servicesPipeline "Services: Plumbing, Drain Cleaning"
        = ["Plumbing", "Drain Cleaning"] ∧
    servicesPipeline "Plumbing" = [] := by
  have hcs : clean_service ⟨"Services: ".toList ++ (c :: (mid ++ [z]))⟩
      = ⟨c :: (mid ++ [z])⟩ := by
    unfold clean_service
    rw [if_neg, pyStrip_label "Services: " "Services: ".toList c z mid
      (fun a ha => ha) hc hz]
    intro hempty
    have : ("Services: ".toList ++ (c :: (mid ++ [z]))).length = 0 := by
      rw [← String.length, hempty]
      rfl
    simp at this
  refine ⟨hcs, ?_, ?_, by decide, by decide⟩
  · unfold servicesPipeline
    rw [hcs]
  · intro raw h
    unfold servicesPipeline servicesToList
    rw [h]
    simp

/-- Witness for `C2_services_cleaning` at the core `"Plumbing, Drain
Cleaning"` (first char `P`, last char `g`, both outside the strip set). -/
theorem C2_services_cleaning_witness :
    'P' ∉ "Services: ".toList ∧ 'g' ∉ "Services: ".toList ∧
    clean_service ⟨"Services: ".toList ++
        ('P' :: ("lumbing, Drain Cleanin".toList ++ ['g']))⟩
      = ⟨'P' :: ("lumbing, Drain Cleanin".toList ++ ['g'])⟩ :=
  ⟨by decide, by decide,
    (C2_services_cleaning 'P' 'g' "lumbing, Drain Cleanin".toList
      (by decide) (by decide)).1⟩

/-! ## Claim C7 — rating cleaning -/

theorem udigits_nondigit (c : Char) (rest : List Char) (h : ¬ c.isDigit) :
    udigits (c :: rest) = ([], c :: rest) := by
  rcases rest with _ | ⟨b, _ | ⟨d, r2⟩⟩
  · simp [udigits, h]
  · by_cases hb : b = '_'
    · subst hb; simp [udigits, h]
    · simp [udigits, h, hb]
  · by_cases hb : b = '_'
    · subst hb; simp [udigits, h]
    · simp [udigits, h, hb]

/-- Lemma: `udigits` consumes exactly a leading all-digit block when the remainder
starts with a character that is neither a digit nor an underscore. -/
theorem udigits_digits (ip : List Char) : ∀ rest : List Char,
    (∀ c ∈ ip, c.isDigit = true) →
    (rest = [] ∨ ∃ r rr, rest = r :: rr ∧ ¬ r.isDigit ∧ r ≠ '_') →
    udigits (ip ++ rest) = (ip, rest) := by
  induction ip with
  | nil =>
      intro rest _ hrest
      rcases hrest with h | ⟨r, rr, hr, hd, _⟩
      · subst h; rfl
      · subst hr; simp [udigits_nondigit r rr hd]
  | cons a ip' ih =>
      intro rest hip hrest
      have ha : a.isDigit = true := hip a (by simp)
      cases ip' with
      | nil =>
          rcases hrest with h | ⟨r, rr, hr, hd, hu⟩
          · subst h; simp [udigits, ha]
          · subst hr
            rcases rr with _ | ⟨d2, r3⟩
            · simp [udigits, ha, hu, hd]
            · simp [udigits, ha, hu, udigits_nondigit r (d2 :: r3) hd]
      | cons b ip'' =>
          have hb : b.isDigit = true := hip b (by simp)
          have hbu : b ≠ '_' := by
            intro hbe
            rw [hbe] at hb
            simp [Char.isDigit] at hb
          have ihr := ih rest (fun c hc => hip c (by simp [hc])) hrest
          rw [List.cons_append] at ihr ⊢
          simp [udigits, ha, hbu, ihr]

/-- An all-digit body parses as the integer it denotes. -/
theorem pyFloatBody_int (ip : List Char) (hip : ip ≠ [])
    (hipd : ∀ c ∈ ip, c.isDigit = true) :
    pyFloatBody ip = some (.fin (digitsToNat ip : ℚ)) := by
  have h1 : udigits (ip ++ []) = (ip, []) := udigits_digits ip [] hipd (Or.inl rfl)
  rw [List.append_nil] at h1
  simp only [pyFloatBody, h1]
  simp [hip, digitsToNat]

/-- A body `digits.digits` parses as integer part plus fractional part. -/
theorem pyFloatBody_frac (ip fp : List Char) (hip : ip ≠ [])
    (hipd : ∀ c ∈ ip, c.isDigit = true) (hfpd : ∀ c ∈ fp, c.isDigit = true) :
    pyFloatBody (ip ++ '.' :: fp) =
      some (.fin ((digitsToNat ip : ℚ) +
        (digitsToNat fp : ℚ) / (10 : ℚ) ^ fp.length)) := by
  have h1 : udigits (ip ++ '.' :: fp) = (ip, '.' :: fp) :=
    udigits_digits ip ('.' :: fp) hipd (Or.inr ⟨'.', fp, rfl, by decide, by decide⟩)
  have h2 : udigits (fp ++ []) = (fp, []) := udigits_digits fp [] hfpd (Or.inl rfl)
  rw [List.append_nil] at h2
  simp only [pyFloatBody, h1]
  simp [h2, hip]

theorem dropWhile_all_false {α : Type} (p : α → Bool) (l : List α)
    (h : ∀ a ∈ l, p a = false) : List.dropWhile p l = l := by
  cases l with
  | nil => rfl
  | cons a t =>
      exact dropWhile_head_false p a t (by simp [h a (by simp)])

/-- Whitespace stripping leaves a whitespace-free character list unchanged. -/
theorem stripWs_id (cs : List Char) (h : ∀ c ∈ cs, pyIsSpace c = false) :
    ((cs.dropWhile pyIsSpace).reverse.dropWhile pyIsSpace).reverse = cs := by
  rw [dropWhile_all_false pyIsSpace cs h,
    dropWhile_all_false pyIsSpace cs.reverse
      (fun a ha => h a (List.mem_reverse.mp ha))]
  exact List.reverse_reverse cs

/-- Lift a successful finite body parse through whitespace stripping and the
sign match of `pyFloat`, for bodies that do not themselves start with a
sign character. -/
theorem pyFloat_of_body (body : List Char) (v : ℚ)
    (hbody : pyFloatBody body = some (.fin v))
    (hws : ∀ c ∈ body, pyIsSpace c = false)
    (hhead : ∀ c, body.head? = some c → c ≠ '+' ∧ c ≠ '-') :
    pyFloat ⟨body⟩ = some (.fin v) ∧
    pyFloat ⟨'+' :: body⟩ = some (.fin v) ∧
    pyFloat ⟨'-' :: body⟩ = some (.fin (-v)) := by
  cases body with
  | nil => simp [pyFloatBody, udigits, matchesKeyword] at hbody
  | cons a rest =>
      obtain ⟨hp, hm⟩ := hhead a rfl
      have hstrip : (((a :: rest).dropWhile pyIsSpace).reverse.dropWhile
          pyIsSpace).reverse = a :: rest := stripWs_id _ hws
      have hwsp : ∀ c ∈ '+' :: a :: rest, pyIsSpace c = false := by
        intro c hc
        rcases List.mem_cons.mp hc with hc | hc
        · subst hc; decide
        · exact hws c hc
      have hwsm : ∀ c ∈ '-' :: a :: rest, pyIsSpace c = false := by
        intro c hc
        rcases List.mem_cons.mp hc with hc | hc
        · subst hc; decide
        · exact hws c hc
      have hstripp : ((('+' :: a :: rest).dropWhile pyIsSpace).reverse.dropWhile
          pyIsSpace).reverse = '+' :: a :: rest := stripWs_id _ hwsp
      have hstripm : ((('-' :: a :: rest).dropWhile pyIsSpace).reverse.dropWhile
          pyIsSpace).reverse = '-' :: a :: rest := stripWs_id _ hwsm
      refine ⟨?_, ?_, ?_⟩
      · show pyFloat (String.mk (a :: rest)) = some (.fin v)
        simp only [pyFloat, String.toList]
        rw [hstrip]
        simp [hp, hm, hbody, PyFloatVal.applySign]
      · show pyFloat (String.mk ('+' :: a :: rest)) = some (.fin v)
        simp only [pyFloat, String.toList]
        rw [hstripp]
        simp [hbody, PyFloatVal.applySign]
      · show pyFloat (String.mk ('-' :: a :: rest)) = some (.fin (-v))
        simp only [pyFloat, String.toList]
        rw [hstripm]
        simp [hbody, PyFloatVal.applySign]

/-- A decimal digit is not whitespace, a sign, or a dot. -/
theorem digit_char_aux (c : Char) (h : c.isDigit = true) :
    pyIsSpace c = false ∧ c ≠ '+' ∧ c ≠ '-' ∧ c ≠ '.' := by
  refine ⟨?_, ?_, ?_, ?_⟩
  · simp only [pyIsSpace, Bool.or_eq_false_iff, decide_eq_false_iff_not]
    refine ⟨⟨⟨⟨⟨?_, ?_⟩, ?_⟩, ?_⟩, ?_⟩, ?_⟩ <;>
      (intro he; rw [he] at h; exact absurd h (by decide))
  · intro he; rw [he] at h; exact absurd h (by decide)
  · intro he; rw [he] at h; exact absurd h (by decide)
  · intro he; rw [he] at h; exact absurd h (by decide)

/-- Value of `pyFloat` on an optionally signed decimal numeral `ip` or `ip.fp`. -/
theorem pyFloat_numeral (ip fp : List Char) (hip : ip ≠ [])
    (hipd : ∀ c ∈ ip, c.isDigit = true) (hfpd : ∀ c ∈ fp, c.isDigit = true) :
    pyFloat ⟨ip⟩ = some (.fin (digitsToNat ip : ℚ)) ∧
    pyFloat ⟨'+' :: ip⟩ = some (.fin (digitsToNat ip : ℚ)) ∧
    pyFloat ⟨'-' :: ip⟩ = some (.fin (-(digitsToNat ip : ℚ))) ∧
    pyFloat ⟨ip ++ '.' :: fp⟩ = some (.fin ((digitsToNat ip : ℚ) +
      (digitsToNat fp : ℚ) / (10 : ℚ) ^ fp.length)) ∧
    pyFloat ⟨'+' :: (ip ++ '.' :: fp)⟩ = some (.fin ((digitsToNat ip : ℚ) +
      (digitsToNat fp : ℚ) / (10 : ℚ) ^ fp.length)) ∧
    pyFloat ⟨'-' :: (ip ++ '.' :: fp)⟩ = some (.fin (-((digitsToNat ip : ℚ) +
      (digitsToNat fp : ℚ) / (10 : ℚ) ^ fp.length))) := by
  have hws1 : ∀ c ∈ ip, pyIsSpace c = false :=
    fun c hc => (digit_char_aux c (hipd c hc)).1
  have hws2 : ∀ c ∈ ip ++ '.' :: fp, pyIsSpace c = false := by
    intro c hc
    rcases List.mem_append.mp hc with hc | hc
    · exact hws1 c hc
    · rcases List.mem_cons.mp hc with hc | hc
      · subst hc; decide
      · exact (digit_char_aux c (hfpd c hc)).1
  have hhead1 : ∀ c, ip.head? = some c → c ≠ '+' ∧ c ≠ '-' := by
    intro c hc
    cases ip with
    | nil => simp at hc
    | cons a t =>
        simp at hc
        subst hc
        exact ⟨(digit_char_aux a (hipd a (by simp))).2.1,
          (digit_char_aux a (hipd a (by simp))).2.2.1⟩
  have hhead2 : ∀ c, (ip ++ '.' :: fp).head? = some c → c ≠ '+' ∧ c ≠ '-' := by
    intro c hc
    cases ip with
    | nil => exact absurd rfl hip
    | cons a t =>
        simp at hc
        subst hc
        exact ⟨(digit_char_aux a (hipd a (by simp))).2.1,
          (digit_char_aux a (hipd a (by simp))).2.2.1⟩
  obtain ⟨h1, h2, h3⟩ := pyFloat_of_body ip (digitsToNat ip : ℚ)
    (pyFloatBody_int ip hip hipd) hws1 hhead1
  obtain ⟨h4, h5, h6⟩ := pyFloat_of_body (ip ++ '.' :: fp) _
    (pyFloatBody_frac ip fp hip hipd hfpd) hws2 hhead2
  exact ⟨h1, h2, h3, h4, h5, h6⟩

/-- Counterexample to C7.  The claim says every raw rating string other than
a valid decimal numeral — "including the empty string" and "alphabetic text"
— leaves the rating absent.  The code's truthiness guard skips the cleaning
entirely for `""` (the field keeps the raw empty string, which is neither a
parsed value nor Python `None`), and the alphabetic strings `"inf"`/`"nan"`
are accepted by `float()`. -/
theorem C7_rating_counterexample :
    clean_rating "" = .raw "" ∧ clean_rating "" ≠ .none ∧
    clean_rating "inf" = .value .inf ∧ clean_rating "inf" ≠ .none := by
  refine ⟨by decide, by decide, by decide, by decide⟩

/-- Amended C7: for every raw rating string that is a decimal numeral
(optional sign, nonempty integer digit part, optional fractional digit part)
the rating becomes exactly that numeric value; every other *nonempty* string
rejected by CPython `float` syntax yields `None` (absent); the *empty* string
is left unchanged as the raw `""` (and `float`-parsable non-numeral strings
such as `"inf"` yield their parsed value, not absent). -/
theorem C7_rating_cleaning (ip fp : List Char) (hip : ip ≠ [])
    (hipd : ∀ c ∈ ip, c.isDigit = true) (hfpd : ∀ c ∈ fp, c.isDigit = true) :
    clean_rating ⟨ip⟩ = .value (.fin (digitsToNat ip : ℚ)) ∧
    clean_rating ⟨'+' :: ip⟩ = .value (.fin (digitsToNat ip : ℚ)) ∧
    clean_rating ⟨'-' :: ip⟩ = .value (.fin (-(digitsToNat ip : ℚ))) ∧
    clean_rating ⟨ip ++ '.' :: fp⟩ = .value (.fin ((digitsToNat ip : ℚ) +
      (digitsToNat fp : ℚ) / (10 : ℚ) ^ fp.length)) ∧
    clean_rating ⟨'+' :: (ip ++ '.' :: fp)⟩ = .value (.fin ((digitsToNat ip : ℚ) +
      (digitsToNat fp : ℚ) / (10 : ℚ) ^ fp.length)) ∧
    clean_rating ⟨'-' :: (ip ++ '.' :: fp)⟩ = .value (.fin (-((digitsToNat ip : ℚ) +
      (digitsToNat fp : ℚ) / (10 : ℚ) ^ fp.length))) ∧
    (∀ s : String, s ≠ "" → pyFloat s = Option.none → clean_rating s = .none) ∧
    clean_rating "" = .raw "" := by
  obtain ⟨h1, h2, h3, h4, h5, h6⟩ := pyFloat_numeral ip fp hip hipd hfpd
  have hne : ∀ cs : List Char, cs ≠ [] → String.mk cs ≠ "" := by
    intro cs hcs he
    exact hcs (congrArg String.data he)
  have hip' : String.mk ip ≠ "" := hne ip hip
  have happ : ip ++ '.' :: fp ≠ [] := by
    intro he
    exact hip (List.append_eq_nil.mp he).1
  refine ⟨?_, ?_, ?_, ?_, ?_, ?_, ?_, by decide⟩
  · unfold clean_rating; rw [if_neg hip', h1]
  · unfold clean_rating; rw [if_neg (hne _ (by simp)), h2]
  · unfold clean_rating; rw [if_neg (hne _ (by simp)), h3]
  · unfold clean_rating; rw [if_neg (hne _ happ), h4]
  · unfold clean_rating; rw [if_neg (hne _ (by simp)), h5]
  · unfold clean_rating; rw [if_neg (hne _ (by simp)), h6]
  · intro s hs hnone
    unfold clean_rating
    rw [if_neg hs, hnone]

/-- Witness for `C7_rating_cleaning` at the numeral `"4.5"`
(`ip = ['4']`, `fp = ['5']`): the rating becomes `4 + 5/10 = 4.5`. -/
theorem C7_rating_cleaning_witness :
    (['4'] : List Char) ≠ [] ∧
    clean_rating "4.5" = .value (.fin ((4 : ℚ) + (5 : ℚ) / (10 : ℚ) ^ (1 : ℕ))) :=
  ⟨by decide, by
    have h := (C7_rating_cleaning ['4'] ['5'] (by decide) (by decide)
      (by decide)).2.2.2.1
    simpa [digitsToNat] using h⟩

/-! ## Claim C8 — reviews cleaning -/

theorem takeWhile_digits_append (run post : List Char)
    (hrun : ∀ c ∈ run, c.isDigit = true)
    (hpost : post = [] ∨ ∃ r rr, post = r :: rr ∧ r.isDigit = false) :
    (run ++ post).takeWhile Char.isDigit = run := by
  induction run with
  | nil =>
      rcases hpost with h | ⟨r, rr, hr, hd⟩
      · subst h; rfl
      · subst hr; simp [List.takeWhile_cons, hd]
  | cons a t ih =>
      have ha : a.isDigit = true := hrun a (by simp)
      simp only [List.cons_append, List.takeWhile_cons, ha, if_true]
      rw [ih (fun c hc => hrun c (by simp [hc]))]

theorem findRun_no_digit (pre : List Char)
    (h : ∀ c ∈ pre, c.isDigit = false) : findRun pre = none := by
  induction pre with
  | nil => rfl
  | cons a t ih =>
      have ha : a.isDigit = false := h a (by simp)
      simp only [findRun, ha, Bool.false_eq_true, if_false]
      exact ih (fun c hc => h c (by simp [hc]))

/-- Lemma: `re.search(r"\d+", ...)` finds exactly the first maximal digit run. -/
theorem findRun_split (pre run post : List Char)
    (hpre : ∀ c ∈ pre, c.isDigit = false)
    (hrun : run ≠ []) (hrund : ∀ c ∈ run, c.isDigit = true)
    (hpost : post = [] ∨ ∃ r rr, post = r :: rr ∧ r.isDigit = false) :
    findRun (pre ++ (run ++ post)) = some run := by
  induction pre with
  | nil =>
      cases run with
      | nil => exact absurd rfl hrun
      | cons d ds =>
          have hd : d.isDigit = true := hrund d (by simp)
          simp only [List.nil_append, List.cons_append, findRun, hd, if_true]
          rw [show ds.append post = ds ++ post from rfl]
          rw [takeWhile_digits_append ds post
            (fun c hc => hrund c (by simp [hc])) hpost]
  | cons a t ih =>
      have ha : a.isDigit = false := hpre a (by simp)
      simp only [List.cons_append, findRun, ha, Bool.false_eq_true, if_false]
      exact ih (fun c hc => hpre c (by simp [hc]))

/-- Counterexample to C8.  The claim says a raw reviews string with no
digits — "including the empty string" — yields an absent review count.  For
`""` the truthiness guard skips the cleaning and the field keeps the raw
empty string instead of becoming `None`. -/
theorem C8_reviews_counterexample :
    clean_reviews "" = .raw "" ∧ clean_reviews "" ≠ .none := by
  refine ⟨by decide, by decide⟩

/-- Amended C8: for every *nonempty* raw reviews string containing a
digit, the review count is the integer value of the first maximal contiguous
digit run (`"1.2K (345 reviews)"` yields `1`); nonempty strings with no
digits yield `None` (absent); the empty string is left unchanged as the raw
`""`. -/
theorem C8_reviews_cleaning (pre run post : List Char)
    (hpre : ∀ c ∈ pre, c.isDigit = false)
    (hrun : run ≠ []) (hrund : ∀ c ∈ run, c.isDigit = true)
    (hpost : post = [] ∨ ∃ r rr, post = r :: rr ∧ r.isDigit = false) :
    clean_reviews ⟨pre ++ (run ++ post)⟩ = .count (digitsToNat run) ∧
    (∀ s : String, s ≠ "" → (∀ c ∈ s.toList, c.isDigit = false) →
      clean_reviews s = .none) ∧
    clean_reviews "" = .raw "" ∧
    clean_reviews "1.2K (345 reviews)" = .count 1 := by
  refine ⟨?_, ?_, by decide, by decide⟩
  · have hne : (pre ++ (run ++ post)) ≠ [] := by
      intro he
      rcases List.append_eq_nil.mp he with ⟨-, h2⟩
      exact hrun (List.append_eq_nil.mp h2).1
    have hsne : String.mk (pre ++ (run ++ post)) ≠ "" := by
      intro he
      exact hne (congrArg String.data he)
    unfold clean_reviews
    rw [if_neg hsne]
    rw [show (String.mk (pre ++ (run ++ post))).toList
      = pre ++ (run ++ post) from rfl]
    rw [findRun_split pre run post hpre hrun hrund hpost]
  · intro s hs hnod
    unfold clean_reviews
    rw [if_neg hs, findRun_no_digit s.toList hnod]

/-- Witness for `C8_reviews_cleaning` at the claim's own example
`"1.2K (345 reviews)"`: the first digit run is `"1"`, so the count is `1`
(not `345`). -/
theorem C8_reviews_cleaning_witness :
    (['1'] : List Char) ≠ [] ∧
    clean_reviews "1.2K (345 reviews)" = .count (digitsToNat ['1']) :=
  ⟨by decide,
    (C8_reviews_cleaning [] ['1'] ".2K (345 reviews)".toList
      (by decide) (by decide) (by decide)
      (Or.inr ⟨'.', "2K (345 reviews)".toList, rfl, by decide⟩)).1⟩

/-! ## Claim C9 — totality of record construction -/

/-- Counterexample to C9.  The claim says each cleaner "only produces a
present or an absent outcome" for any combination of input strings including
empty strings.  Constructing a record with empty rating and reviews strings
leaves both fields holding the raw empty string — neither a parsed (present)
value nor `None` (absent). -/
theorem C9_cleaning_outcome_counterexample :
    (mkBusinessProfile "p" "b" "w" "ph" "sv" "ad" "" "").rating = .raw "" ∧
    (mkBusinessProfile "p" "b" "w" "ph" "sv" "ad" "" "").rating ≠ .none ∧
    (∀ v, (mkBusinessProfile "p" "b" "w" "ph" "sv" "ad" "" "").rating ≠ .value v) ∧
    (mkBusinessProfile "p" "b" "w" "ph" "sv" "ad" "" "").reviews = .raw "" ∧
    (mkBusinessProfile "p" "b" "w" "ph" "sv" "ad" "" "").reviews ≠ .none ∧
    (∀ n, (mkBusinessProfile "p" "b" "w" "ph" "sv" "ad" "" "").reviews ≠ .count n) := by
  refine ⟨by decide, by decide, fun v => by simp [mkBusinessProfile, clean_rating],
    by decide, by decide, fun n => by simp [mkBusinessProfile, clean_reviews]⟩

/-- Amended C9: record construction is total — every combination of
input strings produces a record, the cleaners being total functions (the one
raising operation in the source, `float()`, sits inside `try/except
ValueError`) — and for every *nonempty* raw rating/reviews string the
cleaned field is present (a parsed value) or absent (`None`); for *empty*
raw strings the cleaner is skipped by the truthiness guard and the field
keeps the raw empty string. -/
theorem C9_record_construction
    (p b w ph sv ad rt rv : String) :
    (rt ≠ "" → (∃ v, (mkBusinessProfile p b w ph sv ad rt rv).rating = .value v) ∨
      (mkBusinessProfile p b w ph sv ad rt rv).rating = .none) ∧
    (rv ≠ "" → (∃ n, (mkBusinessProfile p b w ph sv ad rt rv).reviews = .count n) ∨
      (mkBusinessProfile p b w ph sv ad rt rv).reviews = .none) ∧
    (rt = "" → (mkBusinessProfile p b w ph sv ad rt rv).rating = .raw "") ∧
    (rv = "" → (mkBusinessProfile p b w ph sv ad rt rv).reviews = .raw "") ∧
    (mkBusinessProfile p b w ph sv ad rt rv).services = clean_service sv := by
  refine ⟨?_, ?_, ?_, ?_, rfl⟩
  · intro h
    unfold mkBusinessProfile clean_rating
    rw [if_neg h]
    cases pyFloat rt with
    | none => exact Or.inr rfl
    | some v => exact Or.inl ⟨v, rfl⟩
  · intro h
    unfold mkBusinessProfile clean_reviews
    rw [if_neg h]
    cases findRun rv.toList with
    | none => exact Or.inr rfl
    | some ds => exact Or.inl ⟨digitsToNat ds, rfl⟩
  · intro h
    subst h
    unfold mkBusinessProfile clean_rating
    simp
  · intro h
    subst h
    unfold mkBusinessProfile clean_reviews
    simp

/-- Witness for `C9_record_construction` at concrete nonempty rating and
reviews strings. -/
theorem C9_record_construction_witness :
    ("x" : String) ≠ "" ∧
    ((∃ v, (mkBusinessProfile "p" "b" "w" "ph" "sv" "ad" "x" "y").rating = .value v) ∨
      (mkBusinessProfile "p" "b" "w" "ph" "sv" "ad" "x" "y").rating = .none) :=
  ⟨by decide, (C9_record_construction "p" "b" "w" "ph" "sv" "ad" "x" "y").1
    (by decide)⟩

/-- Decidable equality for `Except`, to let `decide` settle concrete
fetch/offset outcomes. -/
instance exceptDecEq {e a : Type} [DecidableEq e] [DecidableEq a] :
    DecidableEq (Except e a) := fun x y =>
  match x, y with
  | .ok v, .ok w =>
      if h : v = w then isTrue (by rw [h])
      else isFalse (by intro he; cases he; exact h rfl)
  | .ok _, .error _ => isFalse (by intro he; cases he)
  | .error _, .ok _ => isFalse (by intro he; cases he)
  | .error v, .error w =>
      if h : v = w then isTrue (by rw [h])
      else isFalse (by intro he; cases he; exact h rfl)

/-! ## Claims C4 and C10 — primary-crawler offset sequence -/

/-- Membership in the offset sequence: exactly the multiples of the page size
strictly below the result count. -/
theorem mem_pages_available (rc k : Nat) :
    k ∈ pages_available rc ↔ 20 ∣ k ∧ k < rc := by
  unfold pages_available RESULTS_PER_PAGE
  rw [List.mem_range']
  constructor
  · rintro ⟨i, hi, rfl⟩
    exact ⟨⟨i, by ring⟩, by omega⟩
  · rintro ⟨⟨d, rfl⟩, hk⟩
    exact ⟨d, by omega, by ring⟩

/-- For more than two pages of results the offset list starts `0, 20, 40`. -/
theorem pages_available_eq_cons (rc : Nat) (h : 40 < rc) :
    pages_available rc = 0 :: 20 :: 40 ::
      List.range' 60 ((rc + 20 - 1) / 20 - 3) 20 := by
  unfold pages_available RESULTS_PER_PAGE
  obtain ⟨k, hk⟩ : ∃ k, (rc + 20 - 1) / 20 = k + 3 :=
    ⟨(rc + 20 - 1) / 20 - 3, by omega⟩
  rw [hk]
  rw [show k + 3 = (k + 2) + 1 from rfl, List.range'_succ]
  rw [show k + 2 = (k + 1) + 1 from rfl, List.range'_succ]
  rw [List.range'_succ]
  rw [show k + 3 - 3 = k from by omega]

/-- Claim C10 as stated: with `next_page` set and at most two page-worths of
results (`results_count ≤ 40`), the offset `40` is absent from
`pages_available`, so the Python `list.index` lookup raises `ValueError`
instead of producing an empty or shortened sequence. -/
theorem C10_offset_skip_raises (rc : Nat) (h : rc ≤ 40) :
    p_handler_offsets rc true = .error () := by
  unfold p_handler_offsets
  have hmem : (2 * RESULTS_PER_PAGE) ∉ pages_available rc := by
    intro hm
    have := (mem_pages_available rc _).mp hm
    unfold RESULTS_PER_PAGE at this
    omega
  simp [hmem]

/-- Witness for `C10_offset_skip_raises` at `results_count = 30`. -/
theorem C10_offset_skip_raises_witness :
    (30 : Nat) ≤ 40 ∧ p_handler_offsets 30 true = .error () :=
  ⟨by decide, C10_offset_skip_raises 30 (by decide)⟩

/-- Counterexample to C4.  The claim quantifies over *every*
`knownResultCount`: with `hasSecondPage` set and `resultCount = 30` it
predicts the sequence `[0, 20]` with the first two page-worths dropped,
i.e. `.ok []`; the code instead raises `ValueError` (offset `40` is absent
from the list, see C10). -/
theorem C4_offset_sequence_counterexample :
    p_handler_offsets 30 true = .error () ∧
    p_handler_offsets 30 true ≠ .ok ((pages_available 30).drop 2) ∧
    p_handler_offsets 30 true ≠ .ok [] := by
  refine ⟨by decide, by decide, by decide⟩

/-- Amended C4: without `next_page` the offset sequence is exactly the
multiples of 20 strictly below `results_count`, in increasing order; with
`next_page` set the first two page-worths are dropped *provided*
`results_count > 40` (otherwise the skip step raises, per C10).  For
`results_count = 47` the sequences are `[0, 20, 40]` and `[40]`. -/
theorem C4_offset_sequence (rc : Nat) :
    p_handler_offsets rc false = .ok (pages_available rc) ∧
    (∀ k : Nat, k ∈ pages_available rc ↔ 20 ∣ k ∧ k < rc) ∧
    (pages_available rc).Pairwise (· < ·) ∧
    (40 < rc → p_handler_offsets rc true = .ok ((pages_available rc).drop 2)) ∧
    p_handler_offsets 47 false = .ok [0, 20, 40] ∧
    p_handler_offsets 47 true = .ok [40] := by
  refine ⟨rfl, mem_pages_available rc, ?_, ?_, by decide, by decide⟩
  · exact List.pairwise_lt_range' 0 _ 20 (by norm_num)
  · intro h
    unfold p_handler_offsets
    have hmem : (2 * RESULTS_PER_PAGE) ∈ pages_available rc := by
      rw [mem_pages_available]
      unfold RESULTS_PER_PAGE
      omega
    have hidx : (pages_available rc).indexOf (2 * RESULTS_PER_PAGE) = 2 := by
      rw [pages_available_eq_cons rc h]
      rw [show 2 * RESULTS_PER_PAGE = 40 from rfl]
      rfl
    simp only [if_pos hmem, if_true, hidx]

/-- Witness for `C4_offset_sequence` at `results_count = 47`:
`47 > 40` and the skip produces `[40]`. -/
theorem C4_offset_sequence_witness :
    40 < 47 ∧ p_handler_offsets 47 true = .ok ((pages_available 47).drop 2) :=
  ⟨by decide, (C4_offset_sequence 47).2.2.2.1 (by decide)⟩

/-! ## Claim C6 — fetch failure behavior -/

/-- Counterexample to C6.  The claim says *both* fetchers raise whenever the
response status is not a success.  `Primary_Stage_Master.fetch_search_pages`
performs no status check at all: on a 404 response it happily returns the
body text instead of raising. -/
theorem C6_fetch_counterexample :
    fetch_search_pages (.ok ⟨404, "body"⟩) = .ok "body" ∧
    (404 : Nat) ≠ 200 ∧
    fetch_search_pages (.ok ⟨404, "body"⟩) ≠ .error () := by
  refine ⟨by decide, by decide, by decide⟩

/-- Amended C6: only the secondary-stage per-profile fetch raises on a
non-success status (`!= 200`); the primary-stage single-page fetch returns
the response text for *any* status and fails only when the transport call
itself raises.  Both propagate a transport-level failure. -/
theorem C6_fetch_failure_behavior :
    (∀ r : HttpResponse, fetch_search_pages (.ok r) = .ok r.text) ∧
    fetch_search_pages (.error ()) = .error () ∧
    (∀ (r : HttpResponse) (url : String), r.status_code ≠ 200 →
      fetch_businesses (.ok r) url = .error ()) ∧
    (∀ (r : HttpResponse) (url : String), r.status_code = 200 →
      fetch_businesses (.ok r) url = .ok (r.text, url)) ∧
    (∀ url : String, fetch_businesses (.error ()) url = .error ()) := by
  refine ⟨fun r => rfl, rfl, ?_, ?_, fun url => rfl⟩
  · intro r url h
    have heq : fetch_businesses (.ok r) url =
        if r.status_code ≠ 200 then .error () else .ok (r.text, url) := rfl
    rw [heq, if_pos h]
  · intro r url h
    have heq : fetch_businesses (.ok r) url =
        if r.status_code ≠ 200 then .error () else .ok (r.text, url) := rfl
    rw [heq, if_neg (show ¬ r.status_code ≠ 200 from fun hn => hn h)]

/-- Witness for `C6_fetch_failure_behavior`: a 404 makes the secondary fetch
raise. -/
theorem C6_fetch_failure_behavior_witness :
    (404 : Nat) ≠ 200 ∧
    fetch_businesses (.ok ⟨404, "body"⟩) "u" = .error () :=
  ⟨by decide, C6_fetch_failure_behavior.2.2.1 ⟨404, "body"⟩ "u" (by decide)⟩

/-! ## Claim C1 — profile extractor on missing markers -/

/-- All seven structural markers have a match. -/
def fullMarkup (m : Markup) : Bool :=
  m.businessText.isSome && m.websiteText.isSome && m.phoneText.isSome &&
    m.servicesText.isSome && m.addressText.isSome && m.ratingText.isSome &&
    m.reviewsText.isSome

/-- The record the extractor produces when every marker matches (the `getD`
defaults are never used under `fullMarkup`). -/
def extractD (m : Markup) (profile : String) : BusinessProfile :=
  mkBusinessProfile profile (m.businessText.getD "") (m.websiteText.getD "")
    (m.phoneText.getD "") (m.servicesText.getD "") (m.addressText.getD "")
    (m.ratingText.getD "") (m.reviewsText.getD "")

theorem extractRecord_full (m : Markup) (profile : String)
    (h : fullMarkup m = true) :
    extractRecord m profile = .ok (extractD m profile) := by
  obtain ⟨b1, b2, b3, b4, b5, b6, b7⟩ := m
  simp only [fullMarkup, Bool.and_eq_true, Option.isSome_iff_exists] at h
  obtain ⟨⟨⟨⟨⟨⟨⟨t1, h1⟩, t2, h2⟩, t3, h3⟩, t4, h4⟩, t5, h5⟩, t6, h6⟩, t7, h7⟩ := h
  subst h1; subst h2; subst h3; subst h4; subst h5; subst h6; subst h7
  rfl

theorem extractRecord_missing (m : Markup) (profile : String)
    (h : m.businessText = Option.none ∨ m.websiteText = Option.none ∨
      m.phoneText = Option.none ∨ m.servicesText = Option.none ∨
      m.addressText = Option.none ∨ m.ratingText = Option.none ∨
      m.reviewsText = Option.none) :
    extractRecord m profile = .error () := by
  obtain ⟨b1, b2, b3, b4, b5, b6, b7⟩ := m
  cases b1 <;> cases b2 <;> cases b3 <;> cases b4 <;> cases b5 <;>
    cases b6 <;> cases b7 <;> first | rfl | simp_all

/-- A detail-page markup whose website marker has no match (all other
markers present). -/
def markupNoWebsite : Markup :=
  { businessText := some "Biz"
    websiteText := Option.none
    phoneText := some "555"
    servicesText := some "Services: A, B"
    addressText := some "Addr"
    ratingText := some "4.5x"
    reviewsText := some "(7)" }

/-- Counterexample to C1.  The claim says a marker with no match yields an
absent field and "never raises" (with only `name` left open).  With the
website marker missing, `css_first` returns `None` and the unconditional
`.text()` call raises `AttributeError`: the extractor produces no record at
all. -/
theorem C1_extractor_counterexample :
    markupNoWebsite.websiteText = Option.none ∧
    extractRecord markupNoWebsite "prof" = .error () := by
  refine ⟨rfl, rfl⟩

/-- Amended C1: the Profile Extractor returns a `BusinessRecord` only
when *every* structural marker has a match; if *any* of the seven markers
(name or otherwise) has no match, the extraction raises (`AttributeError` on
`None.text()`) instead of recording an absent field. -/
theorem C1_extractor_behavior (m : Markup) (profile : String) :
    (fullMarkup m = true →
      extractRecord m profile = .ok (extractD m profile)) ∧
    (fullMarkup m = false →
      extractRecord m profile = .error ()) := by
  constructor
  · exact extractRecord_full m profile
  · intro h
    apply extractRecord_missing m profile
    obtain ⟨b1, b2, b3, b4, b5, b6, b7⟩ := m
    simp only [fullMarkup, Bool.and_eq_false_iff] at h
    cases b1 <;> cases b2 <;> cases b3 <;> cases b4 <;> cases b5 <;>
      cases b6 <;> cases b7 <;> simp_all

/-- Witness for `C1_extractor_behavior`: a fully matched markup extracts to
a record, and dropping the website marker makes the extraction raise. -/
theorem C1_extractor_behavior_witness :
    (fullMarkup ⟨some "Biz", some "W", some "Ph", some "A, B", some "Ad",
      some "4x", some "(7)"⟩ = true ∧
     extractRecord ⟨some "Biz", some "W", some "Ph", some "A, B", some "Ad",
      some "4x", some "(7)"⟩ "prof" =
        .ok (extractD ⟨some "Biz", some "W", some "Ph", some "A, B",
          some "Ad", some "4x", some "(7)"⟩ "prof")) ∧
    (fullMarkup markupNoWebsite = false ∧
     extractRecord markupNoWebsite "prof" = .error ()) :=
  ⟨⟨by decide,
    (C1_extractor_behavior ⟨some "Biz", some "W", some "Ph", some "A, B",
      some "Ad", some "4x", some "(7)"⟩ "prof").1 (by decide)⟩,
   ⟨by decide,
    (C1_extractor_behavior markupNoWebsite "prof").2 (by decide)⟩⟩

/-! ## Claim C3 — the scheduler's output collection is class-level state -/

/-- Lemma: `get_business_data` on responses whose markups are all fully matched:
every record is appended, in order, after the current shared list. -/
theorem get_business_data_full (resps : List (Markup × String)) :
    ∀ state : List BusinessProfile,
    (∀ mp ∈ resps, fullMarkup mp.1 = true) →
    get_business_data state resps =
      (state ++ resps.map (fun mp => extractD mp.1 mp.2), true) := by
  induction resps with
  | nil => intro state _; simp [get_business_data]
  | cons mp rest ih =>
      intro state h
      obtain ⟨m, profile⟩ := mp
      have hm : fullMarkup m = true := h (m, profile) (by simp)
      simp only [get_business_data, extractRecord_full m profile hm]
      rw [ih (state ++ [extractD m profile])
        (fun x hx => h x (by simp [hx]))]
      simp

/-- Lemma: `sHandlerBatches` over fully matched pages: concatenates every batch's
extracted records after the shared list, without raising. -/
theorem sHandlerBatches_full (page : String → Markup) :
    ∀ (batches : List (List String)) (st : List BusinessProfile),
    (∀ b ∈ batches, ∀ p ∈ b, fullMarkup (page p) = true) →
    sHandlerBatches page st batches =
      .ok (st ++ batches.flatten.map (fun p => extractD (page p) p)) := by
  intro batches
  induction batches with
  | nil => intro st _; simp [sHandlerBatches]
  | cons b bs ih =>
      intro st h
      have hb : ∀ mp ∈ b.map (fun p => (page p, p)), fullMarkup mp.1 = true := by
        intro mp hmp
        obtain ⟨p, hp, rfl⟩ := List.mem_map.mp hmp
        exact h b (by simp) p hp
      simp only [sHandlerBatches, get_business_data_full _ st hb]
      rw [ih (st ++ (b.map (fun p => (page p, p))).map
        (fun mp => extractD mp.1 mp.2)) (fun x hx => h x (by simp [hx]))]
      simp [List.map_map, Function.comp]

/-- Every element of the input list lands in exactly one batch, in order:
the loop's final iteration (`p = n - 1`, Python's `profile is
profiles_list[-1]`) always flushes the pending sub-list, so the batches
concatenate back to the input — for *every* input list, duplicated entries
included. -/
theorem cpaLoop_nil (l : List String) (n p : Nat) (acc : List String) :
    cpaLoop l n p [] acc = [] := rfl

theorem cpaLoop_cons_flush (l : List String) (n p : Nat) (x : String)
    (xs acc : List String)
    (h : (l.indexOf x + 1) % CALL_RATE = 0 ∨ p = n - 1) :
    cpaLoop l n p (x :: xs) acc = (acc ++ [x]) :: cpaLoop l n (p + 1) xs [] := by
  simp only [cpaLoop]
  rw [if_pos h]

theorem cpaLoop_cons_noflush (l : List String) (n p : Nat) (x : String)
    (xs acc : List String)
    (h1 : ¬ (l.indexOf x + 1) % CALL_RATE = 0) (h2 : ¬ p = n - 1) :
    cpaLoop l n p (x :: xs) acc = cpaLoop l n (p + 1) xs (acc ++ [x]) := by
  simp only [cpaLoop]
  rw [if_neg (fun hor => hor.elim h1 h2)]

theorem cpaLoop_join (l : List String) :
    ∀ (xs : List String) (p : Nat) (acc : List String),
    p + xs.length = l.length → xs ≠ [] →
    (cpaLoop l l.length p xs acc).flatten = acc ++ xs := by
  intro xs
  induction xs with
  | nil => intro p acc _ hne; exact absurd rfl hne
  | cons x xs' ih =>
      intro p acc hlen _
      cases xs' with
      | nil =>
          have hp : p = l.length - 1 := by simp at hlen; omega
          rw [cpaLoop_cons_flush l l.length p x [] acc (Or.inr hp),
            cpaLoop_nil]
          simp
      | cons y ys =>
          have hp : ¬ p = l.length - 1 := by simp at hlen; omega
          have hlen' : (p + 1) + (y :: ys).length = l.length := by
            simp at hlen ⊢; omega
          by_cases hflush : (l.indexOf x + 1) % CALL_RATE = 0
          · rw [cpaLoop_cons_flush l l.length p x (y :: ys) acc
              (Or.inl hflush)]
            rw [List.flatten_cons, ih (p + 1) [] hlen' (by simp)]
            simp
          · rw [cpaLoop_cons_noflush l l.length p x (y :: ys) acc hflush hp]
            rw [ih (p + 1) (acc ++ [x]) hlen' (by simp)]
            simp

/-- The batches always concatenate back to the profiles list. -/
theorem create_profiles_array_join (l : List String) :
    (create_profiles_array l).flatten = l := by
  unfold create_profiles_array
  by_cases h : l.length ≤ CALL_RATE
  · simp [h]
  · rw [if_neg h]
    cases l with
    | nil => simp [CALL_RATE] at h
    | cons a t =>
        rw [cpaLoop_join (a :: t) (a :: t) 0 [] (by simp) (by simp)]
        simp

/-- Amended C3: `business_info_list` is declared at *class* level, so
it is shared by every `Secondary_Stage` instance in the process.  A call to
`s_handler` on a fully matched page set returns the class-level list:
whatever previous runs and other instances accumulated (`shared`), followed
by the records extracted during this call, in order.  The result equals just
this call's records only when the process-wide list was empty. -/
theorem C3_handler_returns_shared_state (shared : List BusinessProfile)
    (profiles : List String) (page : String → Markup)
    (h : ∀ p ∈ profiles, fullMarkup (page p) = true) :
    s_handler shared profiles page =
      .ok (shared ++ profiles.map (fun p => extractD (page p) p)) := by
  unfold s_handler
  rw [sHandlerBatches_full page (create_profiles_array profiles) shared ?_]
  · rw [create_profiles_array_join]
  · intro b hb p hp
    apply h
    rw [← create_profiles_array_join profiles]
    exact List.mem_flatten.mpr ⟨b, hb, hp⟩

/-- A fully matched markup used by the C3 scenario. -/
def mFull : Markup :=
  { businessText := some "Biz"
    websiteText := some "W"
    phoneText := some "Ph"
    servicesText := some "A, B"
    addressText := some "Ad"
    ratingText := some "x"
    reviewsText := some "y" }

/-- A record accumulated by an earlier run of the scheduler. -/
def rPrev : BusinessProfile := extractD mFull "prev"

/-- Counterexample to C3.  The claim says a *fresh* scheduler instance's
call returns exactly the records extracted during that call and that records
accumulated by previous runs never appear.  `business_info_list` is a class
attribute: a fresh instance starts with the process-wide list (here holding
`rPrev` from an earlier run), and the call returns that record too. -/
theorem C3_run_scoped_counterexample :
    s_handler [rPrev] ["p1"] (fun _ => mFull) =
      .ok [rPrev, extractD mFull "p1"] ∧
    s_handler [rPrev] ["p1"] (fun _ => mFull) ≠
      .ok [extractD mFull "p1"] := by
  refine ⟨by decide, by decide⟩

/-- Witness for `C3_handler_returns_shared_state` at a one-profile call over
a shared list already holding one record. -/
theorem C3_handler_returns_shared_state_witness :
    (∀ p ∈ ["p1"], fullMarkup ((fun _ => mFull) p) = true) ∧
    s_handler [rPrev] ["p1"] (fun _ => mFull) =
      .ok ([rPrev] ++ ["p1"].map (fun p => extractD ((fun _ => mFull) p) p)) :=
  ⟨by decide,
    C3_handler_returns_shared_state [rPrev] ["p1"] (fun _ => mFull)
      (by decide)⟩

/-! ## Claim C5 — batch partitioning

The loop splits on `(profiles_list.index(profile) + 1) % CALL_RATE == 0`,
and `list.index` returns the *first* occurrence of the value.  On a
duplicate-free list this is the iteration position and the loop produces
plain 120-chunks; a duplicate whose first occurrence breaks the modulus
check suppresses a flush and produces an oversized batch. -/

/-- Plain chunking into `CALL_RATE`-sized pieces (fuel-indexed so that it is
structurally recursive; `pyChunks` supplies sufficient fuel). -/
def pyChunksGo : Nat → List String → List (List String)
  | 0, l => [l]
  | fuel + 1, l =>
      if l.length ≤ CALL_RATE then [l]
      else l.take CALL_RATE :: pyChunksGo fuel (l.drop CALL_RATE)

/-- What `create_profiles_array` computes on duplicate-free input: `[l]` when
`l` fits in one batch, otherwise successive 120-element chunks. -/
def pyChunks (l : List String) : List (List String) :=
  pyChunksGo l.length l

theorem pyChunksGo_small (f : Nat) (l : List String)
    (h : l.length ≤ CALL_RATE) : pyChunksGo f l = [l] := by
  cases f with
  | zero => rfl
  | succ f => simp [pyChunksGo, h]

theorem pyChunksGo_fuel : ∀ (f1 : Nat) (l : List String) (f2 : Nat),
    l.length ≤ f1 → l.length ≤ f2 → pyChunksGo f1 l = pyChunksGo f2 l := by
  intro f1
  induction f1 with
  | zero =>
      intro l f2 h1 _
      have hs : l.length ≤ CALL_RATE := by unfold CALL_RATE; omega
      rw [pyChunksGo_small 0 l hs, pyChunksGo_small f2 l hs]
  | succ f ih =>
      intro l f2 h1 h2
      by_cases hlen : l.length ≤ CALL_RATE
      · rw [pyChunksGo_small _ l hlen, pyChunksGo_small f2 l hlen]
      · cases f2 with
        | zero =>
            unfold CALL_RATE at hlen
            omega
        | succ f2' =>
            simp only [pyChunksGo, if_neg hlen]
            rw [ih (l.drop CALL_RATE) f2'
              (by simp; unfold CALL_RATE at *; omega)
              (by simp; unfold CALL_RATE at *; omega)]

/-- One-step unfolding of `pyChunks`. -/
theorem pyChunks_eq (l : List String) :
    pyChunks l = if l.length ≤ CALL_RATE then [l]
      else l.take CALL_RATE :: pyChunks (l.drop CALL_RATE) := by
  unfold pyChunks
  by_cases h : l.length ≤ CALL_RATE
  · rw [if_pos h, pyChunksGo_small _ l h]
  · rw [if_neg h]
    obtain ⟨m, hm⟩ : ∃ m, l.length = m + 1 :=
      ⟨l.length - 1, by unfold CALL_RATE at h; omega⟩
    rw [hm]
    simp only [pyChunksGo, if_neg (hm ▸ h)]
    rw [pyChunksGo_fuel m (l.drop CALL_RATE) (l.drop CALL_RATE).length
      (by simp; unfold CALL_RATE at *; omega) (le_refl _)]
    rw [if_neg (hm ▸ h)]

theorem pyChunks_flatten_aux : ∀ (n : Nat) (l : List String),
    l.length ≤ n → (pyChunks l).flatten = l := by
  intro n
  induction n with
  | zero =>
      intro l h
      rw [pyChunks_eq, if_pos (by unfold CALL_RATE; omega)]
      simp
  | succ n ih =>
      intro l h
      rw [pyChunks_eq]
      by_cases hlen : l.length ≤ CALL_RATE
      · rw [if_pos hlen]; simp
      · rw [if_neg hlen]
        rw [List.flatten_cons, ih (l.drop CALL_RATE)
          (by simp; unfold CALL_RATE at *; omega)]
        exact List.take_append_drop CALL_RATE l

theorem pyChunks_flatten (l : List String) : (pyChunks l).flatten = l :=
  pyChunks_flatten_aux l.length l (le_refl _)

theorem pyChunks_le_aux : ∀ (n : Nat) (l : List String), l.length ≤ n →
    ∀ b ∈ pyChunks l, b.length ≤ CALL_RATE := by
  intro n
  induction n with
  | zero =>
      intro l h b hb
      rw [pyChunks_eq, if_pos (by unfold CALL_RATE; omega)] at hb
      simp at hb
      subst hb
      unfold CALL_RATE
      omega
  | succ n ih =>
      intro l h b hb
      rw [pyChunks_eq] at hb
      by_cases hlen : l.length ≤ CALL_RATE
      · rw [if_pos hlen] at hb
        simp at hb
        exact hb ▸ hlen
      · rw [if_neg hlen] at hb
        rcases List.mem_cons.mp hb with hb | hb
        · subst hb
          exact List.length_take_le _ _
        · exact ih (l.drop CALL_RATE)
            (by simp; unfold CALL_RATE at *; omega) b hb

/-- Every batch produced by `pyChunks` has at most `CALL_RATE` elements. -/
theorem pyChunks_le (l : List String) :
    ∀ b ∈ pyChunks l, b.length ≤ CALL_RATE :=
  pyChunks_le_aux l.length l (le_refl _)

theorem pyChunks_full_aux : ∀ (n : Nat) (l : List String), l.length ≤ n →
    ∀ i : Nat, i + 1 < (pyChunks l).length →
      ((pyChunks l).getD i []).length = CALL_RATE := by
  intro n
  induction n with
  | zero =>
      intro l h i hi
      rw [pyChunks_eq, if_pos (by unfold CALL_RATE; omega)] at hi
      simp at hi
  | succ n ih =>
      intro l h i hi
      by_cases hlen : l.length ≤ CALL_RATE
      · rw [pyChunks_eq, if_pos hlen] at hi
        simp at hi
      · rw [pyChunks_eq, if_neg hlen] at hi ⊢
        cases i with
        | zero =>
            simp only [List.getD_cons_zero]
            simp
            unfold CALL_RATE at *
            omega
        | succ j =>
            simp only [List.getD_cons_succ]
            simp only [List.length_cons] at hi
            exact ih (l.drop CALL_RATE)
              (by simp; unfold CALL_RATE at *; omega) j (by omega)

/-- Every batch except possibly the last has exactly `CALL_RATE` elements. -/
theorem pyChunks_full (l : List String) :
    ∀ i : Nat, i + 1 < (pyChunks l).length →
      ((pyChunks l).getD i []).length = CALL_RATE :=
  pyChunks_full_aux l.length l (le_refl _)

/-- Chunking with a partially filled current batch `acc`, mirroring the
loop's accumulator (proof device; `acc.length < CALL_RATE` holds at every
use site, the final branch is unreachable there). -/
def pyChunksAcc (acc rest : List String) : List (List String) :=
  if rest.length = 0 then []
  else if rest.length + acc.length ≤ CALL_RATE then [acc ++ rest]
  else if h : acc.length < CALL_RATE then
    (acc ++ rest.take (CALL_RATE - acc.length)) ::
      pyChunksAcc [] (rest.drop (CALL_RATE - acc.length))
  else []
  termination_by rest.length
  decreasing_by
    simp
    unfold CALL_RATE at *
    omega

theorem pyChunksAcc_nil_arg (acc : List String) : pyChunksAcc acc [] = [] := by
  unfold pyChunksAcc
  rfl

/-- With an empty accumulator, accumulator chunking is plain chunking. -/
theorem pyChunksAcc_nil : ∀ (n : Nat) (l : List String), l.length ≤ n →
    l ≠ [] → pyChunksAcc [] l = pyChunks l := by
  intro n
  induction n with
  | zero =>
      intro l h hne
      exact absurd (List.length_eq_zero.mp (by omega)) hne
  | succ n ih =>
      intro l h hne
      unfold pyChunksAcc
      rw [pyChunks_eq]
      have h0 : ¬ l.length = 0 := by
        intro he
        exact hne (List.length_eq_zero.mp he)
      rw [if_neg h0]
      by_cases hlen : l.length ≤ CALL_RATE
      · rw [if_pos (by simpa using hlen), if_pos hlen]
        simp
      · rw [if_neg (by simpa using hlen), if_neg hlen]
        rw [dif_pos (by simp; unfold CALL_RATE; omega)]
        simp only [List.length_nil, Nat.sub_zero, List.nil_append]
        rw [ih (l.drop CALL_RATE) (by simp; unfold CALL_RATE at *; omega)
          (by simp; unfold CALL_RATE at *; omega)]

/-- Pushing one element from the input into a non-full accumulator commutes
with accumulator chunking. -/
theorem pyChunksAcc_step (acc : List String) (x : String) (rest : List String)
    (hne : rest ≠ []) (hlt : acc.length + 1 < CALL_RATE) :
    pyChunksAcc acc (x :: rest) = pyChunksAcc (acc ++ [x]) rest := by
  have hrlen : ¬ rest.length = 0 := by
    intro he
    exact hne (List.length_eq_zero.mp he)
  conv_lhs => rw [pyChunksAcc]
  conv_rhs => rw [pyChunksAcc]
  rw [if_neg (by simp), if_neg hrlen]
  by_cases hfit : (x :: rest).length + acc.length ≤ CALL_RATE
  · rw [if_pos hfit, if_pos (by simp at hfit ⊢; omega)]
    simp
  · rw [if_neg hfit, if_neg (by simp at hfit ⊢; omega)]
    rw [dif_pos (by omega), dif_pos (by simp; omega)]
    have hsub : CALL_RATE - acc.length = (CALL_RATE - (acc ++ [x]).length) + 1 := by
      simp
      omega
    rw [hsub, List.take_succ_cons, List.drop_succ_cons]
    simp

/-- Under `Nodup`, `list.index` returns the iteration position, so the
index-based loop is plain positional chunking. -/
theorem cpaLoop_eq_chunks (l : List String) (hl : l.Nodup) :
    ∀ (xs : List String) (j : Nat) (acc : List String),
    xs = l.drop j → j + xs.length = l.length → acc.length = j % CALL_RATE →
    cpaLoop l l.length j xs acc = pyChunksAcc acc xs := by
  intro xs
  induction xs with
  | nil =>
      intro j acc _ _ _
      rw [cpaLoop_nil, pyChunksAcc_nil_arg]
  | cons x rest ih =>
      intro j acc hxs hlen hacc
      have hj : j < l.length := by simp at hlen; omega
      have hdrop : l.drop j = l[j] :: l.drop (j + 1) :=
        List.drop_eq_getElem_cons hj
      rw [hdrop] at hxs
      obtain ⟨hx, hrest⟩ : x = l[j] ∧ rest = l.drop (j + 1) := by
        cases hxs
        exact ⟨rfl, rfl⟩
      have hidx : l.indexOf x = j := by
        rw [hx]
        exact List.indexOf_getElem hl j hj
      have haccle : acc.length ≤ CALL_RATE - 1 := by
        rw [hacc]
        unfold CALL_RATE
        omega
      by_cases hlast : j = l.length - 1
      · have hrest0 : rest = [] := by
          apply List.length_eq_zero.mp
          simp at hlen
          omega
        subst hrest0
        rw [cpaLoop_cons_flush l l.length j x [] acc (Or.inr hlast),
          cpaLoop_nil]
        unfold pyChunksAcc
        rw [if_neg (by simp), if_pos (by simp; unfold CALL_RATE at *; omega)]
      · have hrestne : rest ≠ [] := by
          intro he
          subst he
          simp at hlen
          omega
        by_cases hflush : (j + 1) % CALL_RATE = 0
        · have hacc119 : acc.length = CALL_RATE - 1 := by
            rw [hacc]
            unfold CALL_RATE at *
            omega
          rw [cpaLoop_cons_flush l l.length j x rest acc
            (Or.inl (by rw [hidx]; exact hflush))]
          rw [ih (j + 1) [] hrest (by simp at hlen ⊢; omega)
            (by simp [hflush])]
          have hrl : 0 < rest.length := List.length_pos.mpr hrestne
          conv_rhs => rw [pyChunksAcc]
          rw [if_neg (by simp), if_neg (by simp; unfold CALL_RATE at *; omega),
            dif_pos (by unfold CALL_RATE at *; omega)]
          rw [show CALL_RATE - acc.length = 1 from by
            unfold CALL_RATE at *; omega]
          rw [List.take_succ_cons, List.drop_succ_cons]
          simp
        · have haccsm : acc.length + 1 < CALL_RATE := by
            rw [hacc]
            unfold CALL_RATE at *
            omega
          rw [cpaLoop_cons_noflush l l.length j x rest acc
            (by rw [hidx]; exact hflush) hlast]
          rw [ih (j + 1) (acc ++ [x]) hrest (by simp at hlen ⊢; omega)
            (by simp [hacc]; unfold CALL_RATE at *; omega)]
          exact (pyChunksAcc_step acc x rest hrestne haccsm).symm

/-- On a duplicate-free profile list, `create_profiles_array` is plain
chunking into `CALL_RATE`-sized batches. -/
theorem create_profiles_array_nodup (l : List String) (h : l.Nodup) :
    create_profiles_array l = pyChunks l := by
  unfold create_profiles_array
  by_cases hlen : l.length ≤ CALL_RATE
  · rw [if_pos hlen, pyChunks_eq, if_pos hlen]
  · rw [if_neg hlen]
    rw [cpaLoop_eq_chunks l h l 0 [] (by simp) (by simp) (by simp)]
    exact pyChunksAcc_nil l.length l (le_refl _)
      (by intro he; subst he; unfold CALL_RATE at hlen; simp at hlen)

/-- A list of 121 profile refs in which the value at iteration position 119 duplicates
the value at position 0 (all other values distinct).  `list.index` returns 0
for the duplicate, so the `% CALL_RATE` flush at position 119 is skipped. -/
def cpaDupExample : List String :=
  ["a"] ++ (List.range 118).map (fun i => String.mk [Char.ofNat (256 + i)]) ++
    ["a", "z"]

/-- A list of 250 pairwise distinct profile refs. -/
def ex250 : List String :=
  (List.range 250).map (fun n => String.mk (List.replicate n 'a'))

theorem ex250_nodup : ex250.Nodup := by
  apply List.Nodup.map ?_ (List.nodup_range 250)
  intro m n hmn
  have h2 := congrArg (fun s : String => s.data.length) hmn
  simpa using h2

set_option maxRecDepth 40000 in
/-- Counterexample to C5.  The claim says every batch has size at most
`CALL_RATE = 120` for *every* list of profile refs.  On `cpaDupExample`
(121 refs, one duplicated value) the first-occurrence `index` suppresses the
flush at position 119 and the whole list comes back as a single batch of
121 > 120. -/
theorem C5_batch_partitioning_counterexample :
    (create_profiles_array cpaDupExample).map List.length = [121] ∧
    ¬ (∀ b ∈ create_profiles_array cpaDupExample, b.length ≤ CALL_RATE) := by
  constructor
  · decide
  · intro h
    have h121 := h (cpaDupExample) (by decide)
    revert h121
    decide

set_option maxRecDepth 40000 in
/-- Amended C5: for every list of *pairwise distinct* profile refs,
partitioning yields contiguous batches, in order, whose concatenation is the
input, each of size at most `CALL_RATE` (120), with every batch except
possibly the last of size exactly 120; for 250 distinct refs the batch sizes
are `[120, 120, 10]`.  (With duplicated refs the first-occurrence `index`
misfires and batches can exceed 120, see the counterexample.) -/
theorem C5_batch_partitioning (l : List String) (h : l.Nodup) :
    (create_profiles_array l).flatten = l ∧
    (∀ b ∈ create_profiles_array l, b.length ≤ CALL_RATE) ∧
    (∀ i : Nat, i + 1 < (create_profiles_array l).length →
      ((create_profiles_array l).getD i []).length = CALL_RATE) ∧
    (create_profiles_array ex250).map List.length = [120, 120, 10] := by
  rw [create_profiles_array_nodup l h, create_profiles_array_nodup ex250 ex250_nodup]
  refine ⟨pyChunks_flatten l, pyChunks_le l, pyChunks_full l, ?_⟩
  decide

/-- Witness for `C5_batch_partitioning` at a small duplicate-free list. -/
theorem C5_batch_partitioning_witness :
    (["p", "q", "r"] : List String).Nodup ∧
    (create_profiles_array ["p", "q", "r"]).flatten = ["p", "q", "r"] :=
  ⟨by decide, (C5_batch_partitioning ["p", "q", "r"] (by decide)).1⟩

end GMaps
